import Mathlib

/-!
# Verification of the ghstats-cli core pipeline (`src/main.py`)

Shallow embedding of the core logic of the contributions-heatmap CLI:

* `get_color_for_count` — the count → color bucketer (main.py:73-83);
* `calculate_stats` — total / longest streak / current streak (main.py:85-115);
* the 7×W grid construction from `display_heatmap` (main.py:163-167);
* the month-label canvas construction from `display_heatmap` (main.py:129-150).

Modelling conventions:
* A calendar date is an `Int` linear day number (days since an epoch), so that
  the source's `today - timedelta(days=1)` becomes `today - 1` and date
  comparison is `Int` order.  `datetime.fromisoformat` on well-formed ISO
  strings is exactly this order-preserving injection, so nothing is lost.
* `strftime("%b")`, the month abbreviation of a date, is a Python-library
  function of the calendar date; it enters the embedding as an explicit
  parameter `monthOf : Int → String` of the label-track functions.
* Contribution counts and weekday indices are Python `int`s, so `Int` here
  (the source never validates them, and negative or out-of-range values must
  remain representable).
* `today` is read from the clock at main.py:96; it is passed explicitly here
  so the functions stay pure, quantified over the reference date.
-/

set_option autoImplicit false

namespace GhStats

/-- One `contributionDays` record: ISO date (as linear day number),
`contributionCount`, `weekday` (main.py:48-50). -/
structure Day where
  date : Int
  count : Int
  weekday : Int
  deriving Repr, DecidableEq

/-- One element of the `weeks` list: a record with a `contributionDays` list. -/
structure Week where
  contributionDays : List Day
  deriving Repr, DecidableEq

/-- The result record of `calculate_stats` (main.py:111-115). -/
structure Stats where
  total : Int
  longest_streak : Nat
  current_streak : Nat
  deriving Repr, DecidableEq

/-- The source's `COLORS` palette (main.py:20). -/
def COLORS : List String :=
  ["#151B23", "#057A2E", "#30C563", "#56E879", "#8BFFAD"]

/-- `get_color_for_count` (main.py:73-83): the if/elif chain mapping a count
to one of the five palette entries. -/
def get_color_for_count (count : Int) : String :=
  if count = 0 then COLORS.getD 0 ""
  else if count < 5 then COLORS.getD 1 ""
  else if count < 10 then COLORS.getD 2 ""
  else if count < 20 then COLORS.getD 3 ""
  else COLORS.getD 4 ""

/-- The severity level selected by `get_color_for_count`: the same if/elif
chain, returning the palette index instead of the palette entry. -/
def bucket (count : Int) : Nat :=
  if count = 0 then 0
  else if count < 5 then 1
  else if count < 10 then 2
  else if count < 20 then 3
  else 4

/-- `all_days` (main.py:86): the chronological flattening of the calendar,
week order then day order within each week. -/
def allDays (weeks : List Week) : List Day :=
  weeks.flatMap (fun w => w.contributionDays)

/-- The body of the streak loop (main.py:101-106): state is
`(longest_streak, current_streak)`. -/
def streakStep (s : Nat × Nat) (d : Day) : Nat × Nat :=
  if 0 < d.count then (s.1, s.2 + 1) else (max s.1 s.2, 0)

/-- The `is_active_today` flag (main.py:91-99): set iff the flattened list is
nonempty, its last entry's date is `≥ today - 1`, and its count is positive. -/
def is_active_today (weeks : List Week) (today : Int) : Bool :=
  match (allDays weeks).getLast? with
  | some d => decide (today - 1 ≤ d.date) && decide (0 < d.count)
  | none => false

/-- `calculate_stats` (main.py:85-115), with the reference date `today`
(read from the clock at main.py:96) passed explicitly. -/
def calculate_stats (weeks : List Week) (today : Int) : Stats :=
  let all_days := allDays weeks
  let total := (all_days.map (fun d => d.count)).sum
  let s := all_days.foldl streakStep (0, 0)
  let longest := max s.1 s.2
  let active := if is_active_today weeks today then s.2 else 0
  { total := total, longest_streak := longest, current_streak := active }

/-- The per-week dict `{day['weekday']: day['contributionCount']}` built at
main.py:165: a later entry with the same key overwrites an earlier one, so
lookup returns the count of the *last* day carrying the weekday. -/
def lookupWeekday : List Day → Int → Option Int
  | [], _ => none
  | d :: rest, w =>
    match lookupWeekday rest w with
    | some c => some c
    | none => if d.weekday = w then some d.count else none

/-- `grid_data` (main.py:163-167): 7 rows (weekday 0..6), one column per
week, each cell `days_in_week.get(i, 0)`. -/
def grid_data (weeks : List Week) : List (List Int) :=
  (List.range 7).map (fun (i : Nat) =>
    weeks.map (fun wk => (lookupWeekday wk.contributionDays (i : Int)).getD 0))

/-! ### Spec-side streak definitions (from the spec's words, for refinement) -/

/-- The positivity test `count > 0` of the streak loop. -/
def posCount (d : Day) : Bool := decide (0 < d.count)

/-- Spec: the length of the run of positive-count entries ending at the last
entry of the sequence. -/
def trailingRun (l : List Day) : Nat := (l.reverse.takeWhile posCount).length

/-- Spec: the length of the longest contiguous run of positive-count entries
anywhere in the sequence — the maximum, over every starting position, of the
run of positive entries beginning there (`0` for the empty sequence). -/
def longestRun (l : List Day) : Nat :=
  ((List.range (l.length + 1)).map
    (fun i => ((l.drop i).takeWhile posCount).length)).foldr max 0

/-- The longest run computed with an accumulator `c`, the length of the run
in progress (the shape of the source loop's state). -/
def lrFrom (c : Nat) : List Day → Nat
  | [] => c
  | d :: rest => if posCount d then lrFrom (c + 1) rest else max c (lrFrom 0 rest)

/-! ### Error model, well-formedness, and concrete calendars -/

/-- The core error taxonomy named by the spec (§7).  The source body of the
core functions contains no `raise` and no validation, so no value of this
type is ever produced; it exists so that "raises `InvalidInput`" is a
statable outcome. -/
inductive CoreError where
  | invalidInput : CoreError
  deriving Repr, DecidableEq

/-- `calculate_stats` as a fallible computation.  Every operation in its body
(list comprehension, `sum`, index `[-1]`, comparison, the loop) is total, so
the embedding returns `Except.ok` on every input, malformed ones included. -/
def calculate_statsE (weeks : List Week) (today : Int) :
    Except CoreError Stats :=
  Except.ok (calculate_stats weeks today)

/-- The grid construction as a fallible computation: dict building and
`dict.get(i, 0)` are total, so it returns `Except.ok` on every input. -/
def grid_dataE (weeks : List Week) : Except CoreError (List (List Int)) :=
  Except.ok (grid_data weeks)

/-- Spec §7 well-formedness of one week: at most 7 days, every weekday in
0..6, no negative count, and no two days sharing a weekday. -/
def wellFormedWeek (wk : Week) : Prop :=
  wk.contributionDays.length ≤ 7 ∧
  (∀ d ∈ wk.contributionDays,
    0 ≤ d.weekday ∧ d.weekday ≤ 6 ∧ 0 ≤ d.count) ∧
  (wk.contributionDays.map (fun d => d.weekday)).Nodup

instance wellFormedWeek.dec : DecidablePred wellFormedWeek := fun wk => by
  unfold wellFormedWeek
  infer_instance

/-- Spec §7 well-formedness of a calendar: every week is well-formed. -/
def wellFormed (weeks : List Week) : Prop := ∀ wk ∈ weeks, wellFormedWeek wk

instance wellFormed.dec : DecidablePred wellFormed := fun weeks => by
  unfold wellFormed
  infer_instance

/-- The one-day calendar refuting C1's date condition: its single day is
dated one day *after* the reference date. -/
def c1Cal : List Week := [⟨[⟨1, 1, 0⟩]⟩]

/-- A calendar violating all four well-formedness conditions at once: 8 days
in one week, a weekday of 9, two days sharing weekday 3, a count of -5. -/
def badCal : List Week :=
  [⟨[⟨0, -5, 9⟩, ⟨1, 2, 3⟩, ⟨2, 1, 3⟩, ⟨3, 0, 0⟩, ⟨4, 0, 1⟩, ⟨5, 0, 2⟩,
     ⟨6, 0, 4⟩, ⟨7, 0, 5⟩]⟩]

/-! ### Month-label definitions (main.py:129-150) -/

/-- Writing one label string into the canvas (main.py:146-148): character
`j` of the label goes to index `start + j` when that index is inside the
canvas; characters past the end are dropped. -/
def writeString : List Char → Nat → List Char → List Char
  | canvas, _, [] => canvas
  | canvas, pos, c :: cs =>
    writeString (if pos < canvas.length then canvas.set pos c else canvas)
      (pos + 1) cs

/-- The month-label loop exactly as written (main.py:135-150): one pass over
the weeks that skips empty weeks (`continue`), tracks `last_month`, and on a
month change writes the three-letter month at column `i * cell_width`.
`monthOf` stands for the library call `strftime("%b")` on the week's first
day's date. -/
def monthLabelLoop (monthOf : Int → String) (cellWidth : Nat) :
    Nat → Option String → List Char → List Week → List Char
  | _, _, canvas, [] => canvas
  | i, last, canvas, wk :: rest =>
    match wk.contributionDays with
    | [] => monthLabelLoop monthOf cellWidth (i + 1) last canvas rest
    | d :: _ =>
      let m := monthOf d.date
      if some m = last then
        monthLabelLoop monthOf cellWidth (i + 1) last canvas rest
      else
        monthLabelLoop monthOf cellWidth (i + 1) (some m)
          (writeString canvas (i * cellWidth) m.toList) rest

/-- The finished label canvas (main.py:132-150): `len(weeks) * cell_width`
spaces, then the loop above. -/
def label_canvas (monthOf : Int → String) (cellWidth : Nat)
    (weeks : List Week) : List Char :=
  monthLabelLoop monthOf cellWidth 0 none
    (List.replicate (weeks.length * cellWidth) ' ') weeks

/-- The abstract label track of the loop: the `(start column, text)` pairs
it emits, in emission order, without the canvas. -/
def emitLabels (monthOf : Int → String) (cellWidth : Nat) :
    Nat → Option String → List Week → List (Nat × String)
  | _, _, [] => []
  | i, last, wk :: rest =>
    match wk.contributionDays with
    | [] => emitLabels monthOf cellWidth (i + 1) last rest
    | d :: _ =>
      let m := monthOf d.date
      if some m = last then emitLabels monthOf cellWidth (i + 1) last rest
      else (i * cellWidth, m) ::
        emitLabels monthOf cellWidth (i + 1) (some m) rest

/-- Spec: the month abbreviation of a week's first day (`""` can only arise
for an empty week, which C8 excludes). -/
def firstMonth (monthOf : Int → String) (wk : Week) : String :=
  match wk.contributionDays with
  | [] => ""
  | d :: _ => monthOf d.date

/-- Spec-side label track (from the spec's words): walk weeks
chronologically, tracking the **previous week's** first-day month
(initialized to `none` so the first week always emits); emit
`(i * cellWidth, month)` exactly when the current week's month differs from
the tracked one. -/
def specLabels (monthOf : Int → String) (cellWidth : Nat) :
    Nat → Option String → List Week → List (Nat × String)
  | _, _, [] => []
  | i, prev, wk :: rest =>
    let m := firstMonth monthOf wk
    (if some m = prev then [] else [(i * cellWidth, m)]) ++
      specLabels monthOf cellWidth (i + 1) (some m) rest

/-- The character the emitted labels leave at position `p` of an unbounded
canvas: the character of the *last* label covering `p`, if any. -/
def coveredChar (labels : List (Nat × String)) (p : Nat) : Option Char :=
  match labels with
  | [] => none
  | l :: rest =>
    match coveredChar rest p with
    | some c => some c
    | none =>
      if l.1 ≤ p ∧ p < l.1 + l.2.toList.length then l.2.toList[p - l.1]?
      else none

/-! ### Streak lemmas -/

theorem takeWhile_append_of_all {α : Type} (p : α → Bool) (xs ys : List α)
    (h : xs.all p = true) : (xs ++ ys).takeWhile p = xs ++ ys.takeWhile p := by
  induction xs with
  | nil => simp
  | cons a l ih =>
    simp only [List.all_cons, Bool.and_eq_true] at h
    simp [List.takeWhile_cons, h.1, ih h.2]

theorem takeWhile_append_of_not_all {α : Type} (p : α → Bool) (xs ys : List α)
    (h : xs.all p = false) : (xs ++ ys).takeWhile p = xs.takeWhile p := by
  induction xs with
  | nil => simp at h
  | cons a l ih =>
    by_cases ha : p a
    · simp only [List.all_cons, ha, Bool.true_and] at h
      simp [List.takeWhile_cons, ha, ih h]
    · simp [List.takeWhile_cons, ha]

theorem takeWhile_of_all {α : Type} (p : α → Bool) (xs : List α)
    (h : xs.all p = true) : xs.takeWhile p = xs := by
  induction xs with
  | nil => rfl
  | cons a l ih =>
    simp only [List.all_cons, Bool.and_eq_true] at h
    simp [List.takeWhile_cons, h.1, ih h.2]

theorem trailingRun_cons_all (d : Day) (rest : List Day)
    (h : rest.all posCount = true) :
    trailingRun (d :: rest) = rest.length + (if posCount d then 1 else 0) := by
  unfold trailingRun
  rw [List.reverse_cons, takeWhile_append_of_all _ _ _ (by simpa using h)]
  by_cases hd : posCount d <;> simp [List.takeWhile_cons, hd]

theorem trailingRun_cons_not_all (d : Day) (rest : List Day)
    (h : rest.all posCount = false) :
    trailingRun (d :: rest) = trailingRun rest := by
  unfold trailingRun
  rw [List.reverse_cons, takeWhile_append_of_not_all _ _ _ (by simpa using h)]

theorem trailingRun_of_all (l : List Day) (h : l.all posCount = true) :
    trailingRun l = l.length := by
  unfold trailingRun
  rw [takeWhile_of_all _ _ (by simpa using h)]
  simp

theorem foldl_streak_snd (l : List Day) : ∀ a c : Nat,
    (l.foldl streakStep (a, c)).2 =
      if l.all posCount = true then c + l.length else trailingRun l := by
  induction l with
  | nil => intro a c; simp [trailingRun]
  | cons d rest ih =>
    intro a c
    by_cases hd : posCount d
    · have hc : 0 < d.count := of_decide_eq_true hd
      rw [List.foldl_cons, show streakStep (a, c) d = (a, c + 1) by
        simp [streakStep, hc], ih]
      by_cases hr : rest.all posCount = true
      · simp [List.all_cons, hd, hr, List.length_cons]; omega
      · simp [List.all_cons, hd, hr, trailingRun_cons_not_all d rest
          (by simpa using hr)]
    · have hc : ¬ 0 < d.count := by simpa [posCount] using hd
      rw [List.foldl_cons, show streakStep (a, c) d = (max a c, 0) by
        simp [streakStep, hc], ih]
      have hall : (d :: rest).all posCount = false := by
        simp [List.all_cons, hd]
      by_cases hr : rest.all posCount = true
      · simp [hall, hr, trailingRun_cons_all d rest hr, hd]
      · simp [hall, hr, trailingRun_cons_not_all d rest (by simpa using hr)]

theorem foldl_streak_snd_zero (l : List Day) (a : Nat) :
    (l.foldl streakStep (a, 0)).2 = trailingRun l := by
  rw [foldl_streak_snd]
  by_cases h : l.all posCount = true
  · rw [if_pos h, trailingRun_of_all l h, Nat.zero_add]
  · rw [if_neg h]

theorem foldl_streak_max (l : List Day) : ∀ a c : Nat,
    max (l.foldl streakStep (a, c)).1 (l.foldl streakStep (a, c)).2 =
      max a (lrFrom c l) := by
  induction l with
  | nil => intro a c; simp [lrFrom]
  | cons d rest ih =>
    intro a c
    by_cases hd : posCount d
    · have hc : 0 < d.count := of_decide_eq_true hd
      rw [List.foldl_cons, show streakStep (a, c) d = (a, c + 1) by
        simp [streakStep, hc], ih]
      simp [lrFrom, hd]
    · have hc : ¬ 0 < d.count := by simpa [posCount] using hd
      rw [List.foldl_cons, show streakStep (a, c) d = (max a c, 0) by
        simp [streakStep, hc], ih]
      simp only [lrFrom, hd, if_false, Bool.false_eq_true]
      rw [Nat.max_assoc]

theorem le_foldr_max (x : Nat) (l : List Nat) (h : x ∈ l) :
    x ≤ l.foldr max 0 := by
  induction l with
  | nil => cases h
  | cons y t ih =>
    rcases List.mem_cons.mp h with rfl | h
    · exact Nat.le_max_left _ _
    · exact Nat.le_trans (ih h) (Nat.le_max_right _ _)

theorem longestRun_cons (d : Day) (rest : List Day) :
    longestRun (d :: rest) =
      max ((d :: rest).takeWhile posCount).length (longestRun rest) := by
  unfold longestRun
  rw [show (d :: rest).length + 1 = (rest.length + 1) + 1 by simp,
    List.range_succ_eq_map, List.map_cons, List.foldr_cons, List.map_map]
  have hf : ((fun i => (((d :: rest).drop i).takeWhile posCount).length) ∘
      Nat.succ) = fun i => ((rest.drop i).takeWhile posCount).length := by
    funext i; simp
  rw [hf]
  simp

theorem takeWhile_len_le_longestRun (rest : List Day) :
    (rest.takeWhile posCount).length ≤ longestRun rest :=
  le_foldr_max _ _ (List.mem_map.mpr ⟨0, by simp, by simp⟩)

theorem lrFrom_eq (l : List Day) : ∀ c : Nat,
    lrFrom c l = max (c + (l.takeWhile posCount).length) (longestRun l) := by
  induction l with
  | nil =>
    intro c
    simp [lrFrom, longestRun]
  | cons d rest ih =>
    intro c
    rw [longestRun_cons]
    by_cases hd : posCount d
    · rw [show lrFrom c (d :: rest) = lrFrom (c + 1) rest by simp [lrFrom, hd],
        ih (c + 1)]
      simp only [List.takeWhile_cons, hd, if_true, List.length_cons]
      have := takeWhile_len_le_longestRun rest
      simp only [Nat.max_def]
      split_ifs <;> omega
    · rw [show lrFrom c (d :: rest) = max c (lrFrom 0 rest) by
        simp [lrFrom, hd], ih 0]
      simp only [List.takeWhile_cons, hd, if_false, Bool.false_eq_true,
        List.length_nil, Nat.zero_add, Nat.add_zero]
      have := takeWhile_len_le_longestRun rest
      simp only [Nat.max_def]
      split_ifs <;> omega

theorem longest_eq_longestRun (l : List Day) :
    max (l.foldl streakStep (0, 0)).1 (l.foldl streakStep (0, 0)).2 =
      longestRun l := by
  rw [foldl_streak_max, lrFrom_eq]
  have := takeWhile_len_le_longestRun l
  simp only [Nat.zero_add, Nat.max_def]
  split_ifs <;> omega

/-! ### Claim theorems: color bucketing and streak invariant -/

/-- C3: `get_color_for_count` maps every count ≥ 0 to exactly one of 5
severity levels with thresholds 0→0, 1–4→1, 5–9→2, 10–19→3, ≥20→4; the
listed anchor values hold; the level is monotonically non-decreasing in the
count; and the returned color is exactly the palette entry at the level. -/
theorem c3_bucket_thresholds :
    bucket 0 = 0 ∧ bucket 4 = 1 ∧ bucket 5 = 2 ∧ bucket 9 = 2 ∧
    bucket 10 = 3 ∧ bucket 19 = 3 ∧ bucket 20 = 4 ∧
    (∀ c : Int, 0 ≤ c → bucket c < 5) ∧
    (∀ c : Int,
      (c = 0 → bucket c = 0) ∧ (1 ≤ c → c ≤ 4 → bucket c = 1) ∧
      (5 ≤ c → c ≤ 9 → bucket c = 2) ∧ (10 ≤ c → c ≤ 19 → bucket c = 3) ∧
      (20 ≤ c → bucket c = 4)) ∧
    (∀ c₁ c₂ : Int, 0 ≤ c₁ → c₁ ≤ c₂ → bucket c₁ ≤ bucket c₂) ∧
    (∀ c : Int, get_color_for_count c = COLORS.getD (bucket c) "") := by
  refine ⟨by decide, by decide, by decide, by decide, by decide, by decide,
    by decide, ?_, ?_, ?_, ?_⟩
  · intro c _; unfold bucket; split_ifs <;> omega
  · intro c
    refine ⟨?_, ?_, ?_, ?_, ?_⟩ <;> (intros; unfold bucket; split_ifs <;> omega)
  · intro c₁ c₂ h0 hle; unfold bucket; split_ifs <;> omega
  · intro c; unfold get_color_for_count bucket; split_ifs <;> rfl

/-- Witness for C3 at concrete counts: monotonicity 7 ≤ 12 and range bound. -/
theorem c3_bucket_thresholds_witness : bucket 7 ≤ bucket 12 ∧ bucket 7 < 5 := by
  obtain ⟨-, -, -, -, -, -, -, hrange, -, hmono, -⟩ := c3_bucket_thresholds
  exact ⟨hmono 7 12 (by decide) (by decide), hrange 7 (by decide)⟩

/-- C6: for every calendar and reference date, the stats returned by
`calculate_stats` satisfy `longest_streak ≥ current_streak`. -/
theorem c6_longest_ge_current (weeks : List Week) (today : Int) :
    (calculate_stats weeks today).current_streak ≤
      (calculate_stats weeks today).longest_streak := by
  cases h : is_active_today weeks today <;>
    simp [calculate_stats, h, Nat.le_max_right]

/-! ### Claim theorems: current streak (C1) and longest streak (C4) -/

/-- C1 (amended): `current_streak` equals the trailing run of positive-count
entries exactly when the last entry's date is **on or after** `today - 1`
and its count is positive; in every other case (including the empty
calendar) it is 0. -/
theorem c1_current_streak (weeks : List Week) (today : Int) :
    (calculate_stats weeks today).current_streak =
      (match (allDays weeks).getLast? with
       | some d =>
         if today - 1 ≤ d.date ∧ 0 < d.count then trailingRun (allDays weeks)
         else 0
       | none => 0) := by
  have hsnd := foldl_streak_snd_zero (allDays weeks) 0
  show (if is_active_today weeks today = true
      then ((allDays weeks).foldl streakStep (0, 0)).2 else 0) = _
  rw [hsnd]
  unfold is_active_today
  cases hl : (allDays weeks).getLast? with
  | none => simp
  | some d => by_cases hcond : today - 1 ≤ d.date ∧ 0 < d.count <;>
      simp [hcond]

/-- C1 counterexample: with `today = 0`, the last entry of `c1Cal` has date
`1`, which is neither `today` nor `today - 1`, and positive count; the claim
as stated demands `current_streak = 0`, but the code (which tests
`date ≥ today - 1`, main.py:98) returns the trailing run `1`. -/
theorem c1_counterexample :
    (allDays c1Cal).getLast? = some ⟨1, 1, 0⟩ ∧
    (1 : Int) ≠ 0 ∧ (1 : Int) ≠ 0 - 1 ∧
    trailingRun (allDays c1Cal) = 1 ∧
    (calculate_stats c1Cal 0).current_streak = 1 := by
  refine ⟨rfl, by decide, by decide, rfl, rfl⟩

/-- C4: `longest_streak` equals the length of the longest contiguous run of
positive-count entries anywhere in the chronological flattening; it is 0
when the flattening is empty, and 0 when every count is zero. -/
theorem c4_longest_streak (weeks : List Week) (today : Int) :
    (calculate_stats weeks today).longest_streak = longestRun (allDays weeks) ∧
    (allDays weeks = [] →
      (calculate_stats weeks today).longest_streak = 0) ∧
    ((∀ d ∈ allDays weeks, d.count = 0) →
      (calculate_stats weeks today).longest_streak = 0) := by
  have hmain : (calculate_stats weeks today).longest_streak =
      longestRun (allDays weeks) := longest_eq_longestRun (allDays weeks)
  refine ⟨hmain, ?_, ?_⟩
  · intro h
    rw [hmain, h]
    rfl
  · intro h
    have hfold : ∀ l : List Day, (∀ d ∈ l, d.count = 0) →
        l.foldl streakStep (0, 0) = (0, 0) := by
      intro l
      induction l with
      | nil => intro _; rfl
      | cons d rest ih =>
        intro hz
        have hd : d.count = 0 := hz d (List.mem_cons_self d rest)
        rw [List.foldl_cons, show streakStep (0, 0) d = (0, 0) by
          simp [streakStep, hd]]
        exact ih (fun x hx => hz x (List.mem_cons_of_mem d hx))
    show max ((allDays weeks).foldl streakStep (0, 0)).1
        ((allDays weeks).foldl streakStep (0, 0)).2 = 0
    rw [hfold (allDays weeks) h]
    rfl

/-- Witness for C4's all-zero case: a one-day, zero-count calendar. -/
theorem c4_longest_streak_witness :
    (calculate_stats [⟨[⟨0, 0, 0⟩]⟩] 5).longest_streak = 0 := by
  have h := c4_longest_streak [⟨[⟨0, 0, 0⟩]⟩] 5
  exact h.2.2 (by decide)

/-! ### Claim theorems: error handling (C2) -/

/-- C2 counterexample: `badCal` is malformed in all four ways the claim
names — a week with 8 days, a weekday of 9, two days sharing weekday 3, and
a count of -5 — yet both core functions complete normally; no
`InvalidInput` (indeed no error at all) is raised anywhere in the source. -/
theorem c2_counterexample :
    (∃ wk ∈ badCal, 7 < wk.contributionDays.length) ∧
    (∃ wk ∈ badCal, ∃ d ∈ wk.contributionDays,
      d.weekday < 0 ∨ 6 < d.weekday) ∧
    (∃ wk ∈ badCal, ¬ (wk.contributionDays.map fun d => d.weekday).Nodup) ∧
    (∃ wk ∈ badCal, ∃ d ∈ wk.contributionDays, d.count < 0) ∧
    calculate_statsE badCal 0 = .ok ⟨-2, 2, 0⟩ ∧
    grid_dataE badCal = .ok [[0], [0], [0], [1], [0], [0], [0]] :=
  ⟨by decide, by decide, by decide, by decide, rfl, rfl⟩

/-- C2 (amended): the core functions never raise on *any* input, malformed
or not: `calculate_statsE` and `grid_dataE` always return `Except.ok` and
are never an `InvalidInput` (or any) error; well-formed calendars in
particular complete without error. -/
theorem c2_total_no_raise (weeks : List Week) (today : Int) :
    (∃ s, calculate_statsE weeks today = .ok s) ∧
    (∃ g, grid_dataE weeks = .ok g) ∧
    (∀ e : CoreError, calculate_statsE weeks today ≠ .error e ∧
      grid_dataE weeks ≠ .error e) :=
  ⟨⟨_, rfl⟩, ⟨_, rfl⟩,
    fun _ => ⟨fun h => Except.noConfusion h, fun h => Except.noConfusion h⟩⟩

/-! ### Grid lemmas -/

theorem lookupWeekday_none_of (days : List Day) (w : Int)
    (h : ∀ d ∈ days, d.weekday ≠ w) : lookupWeekday days w = none := by
  induction days with
  | nil => rfl
  | cons d rest ih =>
    rw [lookupWeekday, ih fun x hx => h x (List.mem_cons_of_mem d hx)]
    simp [h d (List.mem_cons_self d rest)]

theorem lookupWeekday_nodup (days : List Day)
    (hnd : (days.map fun d => d.weekday).Nodup) (d : Day) (hd : d ∈ days)
    (w : Int) (hw : d.weekday = w) : lookupWeekday days w = some d.count := by
  induction days with
  | nil => cases hd
  | cons e rest ih =>
    obtain ⟨hnotin, hnd'⟩ := List.nodup_cons.mp hnd
    rw [lookupWeekday]
    rcases List.mem_cons.mp hd with rfl | hmem
    · have hno : ∀ x ∈ rest, x.weekday ≠ w := by
        intro x hx hxw
        have hx2 : x.weekday ∈ rest.map fun d => d.weekday :=
          List.mem_map_of_mem _ hx
        rw [hxw, ← hw] at hx2
        exact hnotin hx2
      rw [lookupWeekday_none_of rest w hno]
      simp [hw]
    · rw [ih hnd' hmem]

theorem lookupWeekday_eq_reverse_find (days : List Day) (w : Int) :
    lookupWeekday days w =
      (days.reverse.find? fun d => decide (d.weekday = w)).map Day.count := by
  induction days with
  | nil => rfl
  | cons d rest ih =>
    rw [lookupWeekday, List.reverse_cons, List.find?_append, ih]
    cases hf : rest.reverse.find? fun d => decide (d.weekday = w) with
    | some e => simp [Option.or]
    | none =>
      simp only [Option.map_none, Option.or, List.find?]
      by_cases hw : d.weekday = w <;> simp [hw]

theorem grid_cell (weeks : List Week) (w : Nat) (hw : w < 7) (i : Nat) :
    ((grid_data weeks)[w]?.bind fun row => row[i]?) =
      weeks[i]?.map fun wk =>
        (lookupWeekday wk.contributionDays (w : Int)).getD 0 := by
  unfold grid_data
  rw [List.getElem?_map, List.getElem?_range hw]
  simp [List.getElem?_map]

theorem sum_map_add {α : Type} (l : List α) (f g : α → Int) :
    (l.map fun x => f x + g x).sum = (l.map f).sum + (l.map g).sum := by
  induction l with
  | nil => simp
  | cons a t ih => simp [ih]; ring

theorem sum_comm_list {α β : Type} (I : List α) (J : List β)
    (f : α → β → Int) :
    (I.map fun a => (J.map fun b => f a b).sum).sum =
      (J.map fun b => (I.map fun a => f a b).sum).sum := by
  induction J with
  | nil => simp
  | cons b J ih =>
    simp only [List.map_cons, List.sum_cons]
    rw [sum_map_add, ih]

theorem sum_indicator_range7 (k : Int) (h0 : 0 ≤ k) (h6 : k ≤ 6) (v : Int) :
    ((List.range 7).map fun (w : Nat) =>
      if (w : Int) = k then v else 0).sum = v := by
  obtain ⟨n, rfl⟩ := Int.eq_ofNat_of_zero_le h0
  have hn : n < 7 := by
    have : (n : Int) ≤ 6 := h6
    omega
  interval_cases n <;>
    simp [show List.range 7 = [0, 1, 2, 3, 4, 5, 6] from rfl]

theorem lookup_cons_getD (d : Day) (rest : List Day) (w : Int)
    (hnot : d.weekday ∉ rest.map fun x => x.weekday) :
    (lookupWeekday (d :: rest) w).getD 0 =
      (lookupWeekday rest w).getD 0 +
        (if w = d.weekday then d.count else 0) := by
  by_cases hw : w = d.weekday
  · subst hw
    have hno : ∀ x ∈ rest, x.weekday ≠ d.weekday := fun x hx hxw =>
      hnot (hxw ▸ List.mem_map_of_mem _ hx)
    simp [lookupWeekday, lookupWeekday_none_of rest d.weekday hno]
  · have hw' : d.weekday ≠ w := fun h => hw h.symm
    cases hl : lookupWeekday rest w with
    | some c => simp [lookupWeekday, hl, hw]
    | none => simp [lookupWeekday, hl, hw, hw']

theorem weekSum (days : List Day)
    (hnd : (days.map fun d => d.weekday).Nodup)
    (hrange : ∀ d ∈ days, 0 ≤ d.weekday ∧ d.weekday ≤ 6) :
    ((List.range 7).map fun (w : Nat) =>
      (lookupWeekday days (w : Int)).getD 0).sum =
      (days.map fun d => d.count).sum := by
  induction days with
  | nil => simp [lookupWeekday]
  | cons d rest ih =>
    obtain ⟨hnotin, hnd'⟩ := List.nodup_cons.mp hnd
    rw [List.map_congr_left fun (w : Nat) _ =>
        lookup_cons_getD d rest (w : Int) hnotin,
      sum_map_add, ih hnd' fun x hx => hrange x (List.mem_cons_of_mem d hx),
      sum_indicator_range7 d.weekday (hrange d (List.mem_cons_self d rest)).1
        (hrange d (List.mem_cons_self d rest)).2 d.count]
    simp [add_comm]

theorem allDays_sum (weeks : List Week) :
    ((allDays weeks).map fun d => d.count).sum =
      (weeks.map fun wk =>
        (wk.contributionDays.map fun d => d.count).sum).sum := by
  induction weeks with
  | nil => rfl
  | cons wk rest ih =>
    rw [show allDays (wk :: rest) = wk.contributionDays ++ allDays rest
      from rfl]
    simp [ih]

/-! ### Claim theorems: grid (C5, C7, C10) -/

/-- C5: for every well-formed calendar, the total computed by
`calculate_stats` equals the sum of every cell of the grid built from the
same calendar. -/
theorem c5_total_conservation (weeks : List Week) (today : Int)
    (hwf : wellFormed weeks) :
    (calculate_stats weeks today).total =
      ((grid_data weeks).map List.sum).sum := by
  show ((allDays weeks).map fun d => d.count).sum = _
  calc ((allDays weeks).map fun d => d.count).sum
      = (weeks.map fun wk =>
          (wk.contributionDays.map fun d => d.count).sum).sum :=
        allDays_sum weeks
    _ = (weeks.map fun wk => ((List.range 7).map fun (w : Nat) =>
          (lookupWeekday wk.contributionDays (w : Int)).getD 0).sum).sum := by
        refine congrArg List.sum (List.map_congr_left fun wk hwk => ?_)
        exact (weekSum wk.contributionDays (hwf wk hwk).2.2
          fun d hd => ⟨((hwf wk hwk).2.1 d hd).1,
            ((hwf wk hwk).2.1 d hd).2.1⟩).symm
    _ = ((List.range 7).map fun (w : Nat) => (weeks.map fun wk =>
          (lookupWeekday wk.contributionDays (w : Int)).getD 0).sum).sum :=
        sum_comm_list weeks (List.range 7) fun wk w =>
          (lookupWeekday wk.contributionDays (w : Int)).getD 0
    _ = ((grid_data weeks).map List.sum).sum := by
        unfold grid_data
        rw [List.map_map]
        rfl

/-- Witness for C5 at a concrete well-formed calendar. -/
theorem c5_total_conservation_witness :
    (calculate_stats [⟨[⟨0, 2, 0⟩, ⟨1, 3, 4⟩]⟩] 0).total = 5 ∧
    ((grid_data [⟨[⟨0, 2, 0⟩, ⟨1, 3, 4⟩]⟩]).map List.sum).sum = 5 := by
  have h := c5_total_conservation [⟨[⟨0, 2, 0⟩, ⟨1, 3, 4⟩]⟩] 0 (by decide)
  exact ⟨by rw [h]; decide, by decide⟩

/-- C7: for a well-formed calendar with W weeks, the grid has exactly 7
rows and every row has exactly W entries; cell `[w][i]` holds the count of
the day of week `i` whose weekday is `w`, and 0 when week `i` has no such
day. -/
theorem c7_normalize_shape_and_cells (weeks : List Week)
    (hwf : wellFormed weeks) :
    (grid_data weeks).length = 7 ∧
    (∀ row ∈ grid_data weeks, row.length = weeks.length) ∧
    (∀ w : Nat, w < 7 → ∀ i : Nat, ∀ wk : Week, weeks[i]? = some wk →
      (∀ d ∈ wk.contributionDays, d.weekday = (w : Int) →
        ((grid_data weeks)[w]?.bind fun row => row[i]?) = some d.count) ∧
      ((∀ d ∈ wk.contributionDays, d.weekday ≠ (w : Int)) →
        ((grid_data weeks)[w]?.bind fun row => row[i]?) = some 0)) := by
  refine ⟨by simp [grid_data], ?_, ?_⟩
  · intro row hrow
    simp only [grid_data, List.mem_map] at hrow
    obtain ⟨w, -, rfl⟩ := hrow
    simp
  · intro w hw i wk hwk
    have hmem : wk ∈ weeks := by
      exact List.mem_iff_getElem?.mpr ⟨i, hwk⟩
    constructor
    · intro d hd hdw
      rw [grid_cell weeks w hw i, hwk, Option.map_some']
      rw [lookupWeekday_nodup _ (hwf wk hmem).2.2 d hd _ hdw]
      rfl
    · intro h
      rw [grid_cell weeks w hw i, hwk, Option.map_some',
        lookupWeekday_none_of _ _ h]
      rfl

/-- Witness for C7: a one-week calendar with a single day on weekday 2. -/
theorem c7_normalize_shape_and_cells_witness :
    ((grid_data [⟨[⟨0, 3, 2⟩]⟩])[2]?.bind fun row => row[0]?) = some 3 ∧
    ((grid_data [⟨[⟨0, 3, 2⟩]⟩])[0]?.bind fun row => row[0]?) = some 0 := by
  have h := c7_normalize_shape_and_cells [⟨[⟨0, 3, 2⟩]⟩] (by decide)
  exact ⟨(h.2.2 2 (by decide) 0 _ rfl).1 ⟨0, 3, 2⟩ (by decide) (by decide),
    (h.2.2 0 (by decide) 0 _ rfl).2 (by decide)⟩

/-- C10: a week containing several days with the same weekday raises no
error, and the grid cell for that weekday holds the count of the *last*
such day in the week's list. -/
theorem c10_last_duplicate_wins (weeks : List Week) (w : Nat) (hw : w < 7)
    (i : Nat) (wk : Week) (hwk : weeks[i]? = some wk) :
    grid_dataE weeks = .ok (grid_data weeks) ∧
    ((grid_data weeks)[w]?.bind fun row => row[i]?) =
      some (((wk.contributionDays.reverse.find?
        fun d => decide (d.weekday = (w : Int))).map Day.count).getD 0) := by
  refine ⟨rfl, ?_⟩
  rw [grid_cell weeks w hw i, hwk, Option.map_some',
    lookupWeekday_eq_reverse_find]

/-- Witness for C10: two days share weekday 3; the later count 5 wins. -/
theorem c10_last_duplicate_wins_witness :
    ((grid_data [⟨[⟨0, 2, 3⟩, ⟨1, 5, 3⟩]⟩])[3]?.bind fun row => row[0]?) =
      some 5 := by
  have h := c10_last_duplicate_wins [⟨[⟨0, 2, 3⟩, ⟨1, 5, 3⟩]⟩] 3 (by decide)
    0 _ rfl
  rw [h.2]
  decide

/-! ### Month-label lemmas -/

theorem emitLabels_eq_specLabels (monthOf : Int → String) (cellWidth : Nat)
    (weeks : List Week) :
    ∀ (i : Nat) (last : Option String),
      (∀ wk ∈ weeks, wk.contributionDays ≠ []) →
      emitLabels monthOf cellWidth i last weeks =
        specLabels monthOf cellWidth i last weeks := by
  induction weeks with
  | nil => intro i last _; rfl
  | cons wk rest ih =>
    intro i last hne
    cases hds : wk.contributionDays with
    | nil => exact absurd hds (hne wk (List.mem_cons_self wk rest))
    | cons d tl =>
      have hne' : ∀ w ∈ rest, w.contributionDays ≠ [] :=
        fun w hw => hne w (List.mem_cons_of_mem wk hw)
      simp only [emitLabels, specLabels, firstMonth, hds]
      by_cases hm : some (monthOf d.date) = last
      · subst hm
        rw [if_pos rfl, if_pos rfl, List.nil_append]
        exact ih i.succ (some (monthOf d.date)) hne'
      · rw [if_neg hm, if_neg hm, List.cons_append, List.nil_append]
        exact congrArg _ (ih i.succ (some (monthOf d.date)) hne')

theorem writeString_length : ∀ s cv : List Char, ∀ pos : Nat,
    (writeString cv pos s).length = cv.length := by
  intro s
  induction s with
  | nil => intro cv pos; rfl
  | cons c cs ih =>
    intro cv pos
    rw [writeString, ih]
    split_ifs with h
    · simp
    · rfl

theorem writeString_getElem? : ∀ s cv : List Char, ∀ pos p : Nat,
    (writeString cv pos s)[p]? =
      if pos ≤ p ∧ p < pos + s.length ∧ p < cv.length then s[p - pos]?
      else cv[p]? := by
  intro s
  induction s with
  | nil =>
    intro cv pos p
    rw [writeString, if_neg]
    rintro ⟨h1, h2, -⟩
    simp only [List.length_nil, Nat.add_zero] at h2
    omega
  | cons c cs ih =>
    intro cv pos p
    rw [writeString, ih]
    simp only [List.length_cons]
    by_cases hb : pos < cv.length
    · rw [if_pos hb, List.length_set]
      by_cases hp : p = pos
      · subst hp
        rw [if_neg (by omega), if_pos ⟨Nat.le_refl p, by omega, hb⟩,
          List.getElem?_set_self hb, Nat.sub_self,
          List.getElem?_cons_zero]
      · rw [List.getElem?_set_ne fun h => hp h.symm]
        by_cases hcond : pos + 1 ≤ p ∧ p < pos + 1 + cs.length ∧ p < cv.length
        · rw [if_pos hcond, if_pos ⟨by omega, by omega, hcond.2.2⟩,
            show p - pos = (p - (pos + 1)) + 1 by omega,
            List.getElem?_cons_succ]
        · rw [if_neg hcond, if_neg]
          rintro ⟨h1, h2, h3⟩
          exact hcond ⟨by omega, by omega, h3⟩
    · rw [if_neg hb,
        if_neg (by rintro ⟨h1, h2, h3⟩; omega),
        if_neg (by rintro ⟨h1, h2, h3⟩; omega)]

theorem foldl_write_length (labels : List (Nat × String)) :
    ∀ cv : List Char,
      (labels.foldl (fun cv l => writeString cv l.1 l.2.toList) cv).length =
        cv.length := by
  induction labels with
  | nil => intro cv; rfl
  | cons l rest ih =>
    intro cv
    rw [List.foldl_cons, ih, writeString_length]

theorem foldl_write_getElem? (labels : List (Nat × String)) :
    ∀ cv : List Char, ∀ p : Nat, p < cv.length →
      (labels.foldl (fun cv l => writeString cv l.1 l.2.toList) cv)[p]? =
        (match coveredChar labels p with
         | some c => some c
         | none => cv[p]?) := by
  induction labels with
  | nil => intro cv p _; rfl
  | cons l rest ih =>
    intro cv p hp
    rw [List.foldl_cons,
      ih _ p (by rw [writeString_length]; exact hp)]
    cases hc : coveredChar rest p with
    | some c => simp [coveredChar, hc]
    | none =>
      simp only [coveredChar, hc]
      rw [writeString_getElem?]
      by_cases hcov : l.1 ≤ p ∧ p < l.1 + l.2.toList.length
      · have hlt : p - l.1 < l.2.toList.length := by omega
        rw [if_pos ⟨hcov.1, hcov.2, hp⟩, if_pos hcov,
          List.getElem?_eq_getElem hlt]
      · rw [if_neg fun h => hcov ⟨h.1, h.2.1⟩, if_neg hcov]

theorem monthLabelLoop_eq_foldl (monthOf : Int → String) (cellWidth : Nat)
    (weeks : List Week) :
    ∀ (i : Nat) (last : Option String) (canvas : List Char),
      monthLabelLoop monthOf cellWidth i last canvas weeks =
        (emitLabels monthOf cellWidth i last weeks).foldl
          (fun cv l => writeString cv l.1 l.2.toList) canvas := by
  induction weeks with
  | nil => intro i last canvas; rfl
  | cons wk rest ih =>
    intro i last canvas
    cases hds : wk.contributionDays with
    | nil =>
      simp only [monthLabelLoop, emitLabels, hds]
      exact ih (i + 1) last canvas
    | cons d tl =>
      simp only [monthLabelLoop, emitLabels, hds]
      by_cases hm : some (monthOf d.date) = last
      · rw [if_pos hm, if_pos hm]
        exact ih (i + 1) last canvas
      · rw [if_neg hm, if_neg hm, List.foldl_cons]
        exact ih (i + 1) (some (monthOf d.date)) _

/-! ### Claim theorems: month labels (C8, C9) -/

/-- C8: for a calendar of non-empty weeks, the label loop emits
`(i * cellWidth, month)` exactly for the weeks whose first-day month
abbreviation differs from the previous week's (the tracked month starts as
`none`, so the first week always emits), and emits nothing for the other
weeks — the emission list equals the spec-side track that always tracks the
previous week's month. -/
theorem c8_month_label_track (monthOf : Int → String) (cellWidth : Nat)
    (weeks : List Week) (hne : ∀ wk ∈ weeks, wk.contributionDays ≠ []) :
    emitLabels monthOf cellWidth 0 none weeks =
      specLabels monthOf cellWidth 0 none weeks :=
  emitLabels_eq_specLabels monthOf cellWidth weeks 0 none hne

/-- Witness for C8: three weeks starting in Jan, Jan, Feb emit labels only
at week 0 (column 0, "Jan") and week 2 (column 4, "Feb"). -/
theorem c8_month_label_track_witness :
    emitLabels (fun t => if t < 14 then "Jan" else "Feb") 2 0 none
        [⟨[⟨0, 0, 0⟩]⟩, ⟨[⟨7, 0, 0⟩]⟩, ⟨[⟨14, 0, 0⟩]⟩] =
      [(0, "Jan"), (4, "Feb")] := by
  rw [c8_month_label_track (fun t => if t < 14 then "Jan" else "Feb") 2
    [⟨[⟨0, 0, 0⟩]⟩, ⟨[⟨7, 0, 0⟩]⟩, ⟨[⟨14, 0, 0⟩]⟩] (by decide)]
  rfl

/-- C9: the label canvas keeps its fixed length `W * cellWidth` (every write
lands inside it; a label running past the end is truncated), and every
in-bounds position holds the character of the chronologically *last*
emitted label covering it — later labels overwrite earlier ones on
overlap — or the initial `' '` when no label covers it. -/
theorem c9_canvas_bounds_and_overwrite (monthOf : Int → String)
    (cellWidth : Nat) (weeks : List Week) :
    (label_canvas monthOf cellWidth weeks).length =
      weeks.length * cellWidth ∧
    (∀ p : Nat, p < weeks.length * cellWidth →
      (label_canvas monthOf cellWidth weeks)[p]? =
        some ((coveredChar (emitLabels monthOf cellWidth 0 none weeks)
          p).getD ' ')) := by
  unfold label_canvas
  rw [monthLabelLoop_eq_foldl]
  constructor
  · rw [foldl_write_length]
    simp
  · intro p hp
    rw [foldl_write_getElem? _ _ p (by simpa using hp)]
    cases hc : coveredChar (emitLabels monthOf cellWidth 0 none weeks) p with
    | some c => simp
    | none =>
      simp only [Option.getD]
      rw [List.getElem?_replicate_of_lt hp]

/-- Witness for C9: two labels "Jan" at column 0 and "Feb" at column 2 on a
4-character canvas; at the overlap position 2 the later "Feb" wins, and the
final "b" of "Feb" is truncated away. -/
theorem c9_canvas_witness :
    (label_canvas (fun t => if t < 31 then "Jan" else "Feb") 2
        [⟨[⟨0, 0, 0⟩]⟩, ⟨[⟨31, 0, 0⟩]⟩])[2]? = some 'F' := by
  have h := c9_canvas_bounds_and_overwrite
    (fun t => if t < 31 then "Jan" else "Feb") 2
    [⟨[⟨0, 0, 0⟩]⟩, ⟨[⟨31, 0, 0⟩]⟩]
  rw [h.2 2 (by decide)]
  rfl

end GhStats
